import Mathlib

/-!
Verification development for the nose-particle generator
(`NoseParticleGeneration.py`).

The program is embedded shallowly:

* Real-valued quantities (`float` in the source) are modelled as exact
  rationals `ℚ`.  All concrete constants of the source are exact decimal
  literals, so they are represented exactly.
* The pseudo-random source is modelled as an explicit stream
  `u : ℕ → ℚ` of draws of CPython's `random.random()` (values in
  `[0, 1)`); `random.uniform a b` is `a + (b - a) * x` for a draw `x`,
  exactly as in CPython's implementation.  Every call of the program
  consumes stream positions in order, so a whole run is a deterministic
  function of the stream.
* The output file is modelled as the list of writer invocations
  (records); the two serializers `Output`/`OutputStar` are modelled as
  pure functions from their arguments to the produced line and the
  returned particle id.  Python's fixed-point formatting `{:.Nf}` is
  modelled for exact rationals (scale by `10 ^ N`, round half up on the
  magnitude); at every value this development evaluates, the scaled
  value is an integer, so no rounding occurs and the model agrees with
  CPython's formatting of the corresponding double.
* The unbounded rejection loop of `GenNostril` is modelled with
  `Nat.find` over the stream: it is defined (and terminates) exactly
  when the stream eventually yields an accepted candidate, mirroring
  the `while True` loop, which imposes no retry bound.  A fuel-indexed
  variant (`rejLoopFuel` and friends) is also provided to observe the
  prefix of writes of a run whose rejection loop never accepts
  (malformed radius).
* The source hard-codes the loop bound `200005` and reads the module
  globals (`radius`, the matrices, the mouth rectangle).  The loop
  bound `stop` and the nostril radius `r` are parameters of the
  embedded scheduler so that the configurations named by the spec's
  scenarios can be instantiated; every claim about the shipped
  configuration instantiates `r := radius`.
-/

namespace NPG

/-! ### Serialization (the two output formats) -/

/-- Digit character for a value `0 ≤ d ≤ 9`. -/
def digitChar (d : ℕ) : Char := Char.ofNat (48 + d)

/-- Decimal digits of `n`, most significant first; `fuel` bounds the
recursion (any `fuel ≥ n` suffices since `n / 10 < n` for `n > 0`). -/
def natStrAux : ℕ → ℕ → List Char
  | 0, _ => []
  | _ + 1, 0 => []
  | fuel + 1, n => natStrAux fuel (n / 10) ++ [digitChar (n % 10)]

/-- Decimal string of a natural number (models Python's `str` / `{}`
formatting of a nonnegative integer). -/
def natStr (n : ℕ) : String := if n = 0 then "0" else String.mk (natStrAux (n + 1) n)

/-- Pad a string on the left with `'0'` to width `w`. -/
def padZeros (w : ℕ) (s : String) : String :=
  String.mk (List.replicate (w - s.length) '0') ++ s

/-- Pad a string on the left with spaces to width `w` (Python's default
right-alignment of numbers in a width field). -/
def padSpaces (w : ℕ) (s : String) : String :=
  String.mk (List.replicate (w - s.length) ' ') ++ s

/-- The integer printed by fixed-point formatting of a nonnegative
rational `q` with `prec` digits: `q * 10 ^ prec` rounded half up,
computed on the numerator and denominator
(`(q.num * 10 ^ prec) / q.den + 1/2`, floored). -/
def roundScaled (q : ℚ) (prec : ℕ) : ℕ :=
  (2 * q.num.toNat * 10 ^ prec + q.den) / (2 * q.den)

/-- Fixed-point decimal rendering of a nonnegative rational with `prec`
digits after the point (models Python's `{:.Nf}` at values where the
formatted double is exact at this precision). -/
def fmtFixedNonneg (q : ℚ) (prec : ℕ) : String :=
  if prec = 0 then natStr (roundScaled q prec)
  else natStr (roundScaled q prec / 10 ^ prec) ++ "." ++
    padZeros prec (natStr (roundScaled q prec % 10 ^ prec))

/-- Fixed-point decimal rendering of a rational, with sign. -/
def fmtFixed (q : ℚ) (prec : ℕ) : String :=
  if q < 0 then "-" ++ fmtFixedNonneg (-q) prec else fmtFixedNonneg q prec

/-- Full-format record writer (`Output` in the source): serializes
`x y z 0.0 0.0 0.0 start_time 10.0e-6 977.0 id` with positions at 15
decimals and `start_time = ti / 1000` (milliseconds to seconds) at
width 7 with 3 decimals, all tab-separated, newline-terminated.
Returns the produced line together with the incremented particle id
(the source's `return pId + 1`). -/
def Output (ti pId : ℕ) (coord : ℚ × ℚ × ℚ) : String × ℕ :=
  (fmtFixed coord.1 15 ++ "\t" ++ fmtFixed coord.2.1 15 ++ "\t" ++ fmtFixed coord.2.2 15 ++
    "\t0.0\t0.0\t0.0\t" ++ padSpaces 7 (fmtFixed ((ti : ℚ) / 1000) 3) ++
    "\t10.0e-6\t977.0\t" ++ natStr pId ++ "\n", pId + 1)

/-- Compact-format record writer (`OutputStar` in the source):
serializes `v, id, x, y, z` with coordinates at 15 decimals and the id
field `pId + 1`.  Returns the produced line together with the
incremented particle id. -/
def OutputStar (ti pId : ℕ) (coord : ℚ × ℚ × ℚ) : String × ℕ :=
  ("v, " ++ natStr (pId + 1) ++ ", " ++ fmtFixed coord.1 15 ++ ", " ++
    fmtFixed coord.2.1 15 ++ ", " ++ fmtFixed coord.2.2 15 ++ "\n", pId + 1)

/-! ### Geometry constants of the source -/

/-- X-plane position for mouth particles. -/
def xPln : ℚ := 0.0015

/-- Minimum Y coordinate of the mouth rectangle. -/
def ymin : ℚ := 3.351

/-- Maximum Y coordinate of the mouth rectangle. -/
def ymax : ℚ := 3.391

/-- Y-axis range for mouth particles (`ymax - ymin` in the source). -/
def ydel : ℚ := ymax - ymin

/-- Minimum Z coordinate of the mouth rectangle. -/
def zmin : ℚ := 1.678

/-- Maximum Z coordinate of the mouth rectangle. -/
def zmax : ℚ := 1.6881

/-- Z-axis range for mouth particles (`zmax - zmin` in the source). -/
def zdel : ℚ := zmax - zmin

/-- Nostril particle generation radius. -/
def radius : ℚ := 0.001875

/-- A 3×4 affine transform: rotation entries `aI0 aI1 aI2` and
translation entry `aI3` of row `I` (the source's `rotTrans[I][J]`). -/
structure Mat34 where
  a00 : ℚ
  a01 : ℚ
  a02 : ℚ
  a03 : ℚ
  a10 : ℚ
  a11 : ℚ
  a12 : ℚ
  a13 : ℚ
  a20 : ℚ
  a21 : ℚ
  a22 : ℚ
  a23 : ℚ

/-- Left nostril transformation matrix. -/
def leftRotTrans : Mat34 :=
  ⟨0.948, 0.000, -0.319, 0.00573,
   0.000, 1.000, 0.000, -0.00875,
   0.319, 0.000, 0.948, 1.71177⟩

/-- Right nostril transformation matrix. -/
def rightRotTrans : Mat34 :=
  ⟨0.948, 0.000, -0.319, 0.00573,
   0.000, 1.000, 0.000, -0.00875,
   0.319, 0.000, 0.948, 1.71177⟩

/-- Apply a 3D rotation and translation transformation to a coordinate
triple, exactly as the source's `RotTrans`: row `I` of the result is
`rotTrans[I][0]*x + rotTrans[I][1]*y + rotTrans[I][2]*z + rotTrans[I][3]`. -/
def RotTrans (m : Mat34) (coord : ℚ × ℚ × ℚ) : ℚ × ℚ × ℚ :=
  (m.a00 * coord.1 + m.a01 * coord.2.1 + m.a02 * coord.2.2 + m.a03,
   m.a10 * coord.1 + m.a11 * coord.2.1 + m.a12 * coord.2.2 + m.a13,
   m.a20 * coord.1 + m.a21 * coord.2.1 + m.a22 * coord.2.2 + m.a23)

/-! ### The emission model -/

/-- Source region of an emitted particle (the call site of the writer). -/
inductive Region where
  | mouth : Region
  | leftNostril : Region
  | rightNostril : Region
deriving DecidableEq

/-- One writer invocation: the time step and particle id passed to the
output function, the sampled local coordinate, and the global
coordinate passed to the output function.  For mouth particles local
and global coordinates coincide (the mouth plane is sampled directly in
global coordinates). -/
structure Record where
  ti : ℕ
  pId : ℕ
  region : Region
  localCoord : ℚ × ℚ × ℚ
  coord : ℚ × ℚ × ℚ

/-- CPython's `random.uniform a b` applied to a draw `x` of
`random.random()`: `a + (b - a) * x`. -/
def pyUniform (a b x : ℚ) : ℚ := a + (b - a) * x

/-- One mouth particle: `y = ymin + uniform(0, ydel)` and
`z = zmin + uniform(0, zdel)` at the fixed x-plane, consuming the two
stream draws at `pos` and `pos + 1`. -/
def mouthParticle (ti pId : ℕ) (u : ℕ → ℚ) (pos : ℕ) : Record :=
  { ti := ti, pId := pId, region := Region.mouth,
    localCoord := (xPln, ymin + pyUniform 0 ydel (u pos), zmin + pyUniform 0 zdel (u (pos + 1))),
    coord := (xPln, ymin + pyUniform 0 ydel (u pos), zmin + pyUniform 0 zdel (u (pos + 1))) }

/-- The mouth loop `for i in range(0, n)`: emits one mouth particle per
iteration, advancing the particle id by 1 and the stream by 2 draws.
Returns the emitted records, the final particle id, and the final
stream position.  The source calls it with `n = 5`. -/
def mouthLoop (ti : ℕ) (u : ℕ → ℚ) : ℕ → ℕ → ℕ → List Record × ℕ × ℕ
  | 0, pId, pos => ([], pId, pos)
  | n + 1, pId, pos =>
    let rest := mouthLoop ti u n (pId + 1) (pos + 2)
    (mouthParticle ti pId u pos :: rest.1, rest.2)

/-- The rejection-sampling candidate drawn at stream position `k`:
`x = radius * uniform(-1, 1)` and `y = radius * uniform(-1, 1)`,
consuming the draws at `k` and `k + 1`. -/
def candAt (r : ℚ) (u : ℕ → ℚ) (k : ℕ) : ℚ × ℚ :=
  (r * pyUniform (-1) 1 (u k), r * pyUniform (-1) 1 (u (k + 1)))

/-- Acceptance test of the rejection loop: `x*x + y*y < radius*radius`. -/
def acceptB (r : ℚ) (p : ℚ × ℚ) : Bool := decide (p.1 * p.1 + p.2 * p.2 < r * r)

/-- The random stream eventually yields an accepted candidate from
every loop start position (candidates are tried every 2 draws).  This
is exactly the condition under which the source's `while True`
rejection loop terminates. -/
def Cofinal (r : ℚ) (u : ℕ → ℚ) : Prop :=
  ∀ k : ℕ, ∃ j : ℕ, acceptB r (candAt r u (k + 2 * j)) = true

/-- The `while True` rejection loop started at stream position `k`:
returns the position of the first accepted candidate (trying positions
`k, k + 2, k + 4, …`).  Defined by `Nat.find`, so it exists exactly
when the stream eventually accepts — the implementation imposes no
retry bound. -/
def rejLoop (r : ℚ) (u : ℕ → ℚ) (h : Cofinal r u) (k : ℕ) : ℕ :=
  k + 2 * Nat.find (h k)

/-- One nostril particle built from the accepted candidate at stream
position `k`: local coordinate `(x, y, 0.0)` mapped through `RotTrans`. -/
def nostrilParticle (ti pId : ℕ) (m : Mat34) (r : ℚ) (u : ℕ → ℚ) (k : ℕ) (reg : Region) :
    Record :=
  { ti := ti, pId := pId, region := reg,
    localCoord := ((candAt r u k).1, (candAt r u k).2, 0),
    coord := RotTrans m ((candAt r u k).1, (candAt r u k).2, 0) }

/-- The source's `GenNostril`: two iterations, each running the
rejection loop to an accepted candidate, transforming it, and writing
one record.  Returns the records, the final particle id (`pId + 2`),
and the final stream position. -/
def GenNostril (ti : ℕ) (r : ℚ) (pId : ℕ) (m : Mat34) (reg : Region) (u : ℕ → ℚ)
    (h : Cofinal r u) (pos : ℕ) : List Record × ℕ × ℕ :=
  let k1 := rejLoop r u h pos
  let k2 := rejLoop r u h (k1 + 2)
  ([nostrilParticle ti pId m r u k1 reg, nostrilParticle ti (pId + 1) m r u k2 reg],
   pId + 2, k2 + 2)

/-- One iteration of the scheduler loop at time step `ti`: compute
`tm = ti % 5000` and, if `tm >= 0 and tm < 2500`, emit 5 mouth
particles, then 2 left-nostril particles, then 2 right-nostril
particles; otherwise emit nothing.  Returns the emitted records, the
final particle id, and the final stream position. -/
def step (r : ℚ) (u : ℕ → ℚ) (h : Cofinal r u) (ti pId pos : ℕ) : List Record × ℕ × ℕ :=
  if 0 ≤ ti % 5000 ∧ ti % 5000 < 2500 then
    let m := mouthLoop ti u 5 pId pos
    let l := GenNostril ti r m.2.1 leftRotTrans Region.leftNostril u h m.2.2
    let rr := GenNostril ti r l.2.1 rightRotTrans Region.rightNostril u h l.2.2
    (m.1 ++ (l.1 ++ rr.1), rr.2)
  else ([], pId, pos)

/-- Python's `range(0, stop, stepSize)` for a positive step size. -/
def pyRange (stop stepSize : ℕ) : List ℕ :=
  (List.range ((stop + stepSize - 1) / stepSize)).map (fun k => k * stepSize)

/-- The scheduler loop over a list of time steps, threading the
particle id and the stream position; produces the per-step batches of
records in loop order. -/
def runLoop (r : ℚ) (u : ℕ → ℚ) (h : Cofinal r u) :
    List ℕ → ℕ → ℕ → List (ℕ × List Record) × ℕ × ℕ
  | [], pId, pos => ([], pId, pos)
  | ti :: tis, pId, pos =>
    let s := step r u h ti pId pos
    let rest := runLoop r u h tis s.2.1 s.2.2
    ((ti, s.1) :: rest.1, rest.2)

/-- The source's `NoseParticleGeneration`: iterate `ti` over
`range(0, stop, 5)` starting from particle id 0, and return the
per-step batches together with the final particle count (the number
the source prints in its summary).  The source instantiates
`stop = 200005` and `r = radius`. -/
def NoseParticleGeneration (r : ℚ) (stop : ℕ) (u : ℕ → ℚ) (h : Cofinal r u) :
    List (ℕ × List Record) × ℕ :=
  ((runLoop r u h (pyRange stop 5) 0 0).1, (runLoop r u h (pyRange stop 5) 0 0).2.1)

/-- All records written during a run, in write order. -/
def runRecords (r : ℚ) (stop : ℕ) (u : ℕ → ℚ) (h : Cofinal r u) : List Record :=
  ((NoseParticleGeneration r stop u h).1.map Prod.snd).flatten

/-- The records written at time step `ti` of a run. -/
def recordsAt (r : ℚ) (stop : ℕ) (u : ℕ → ℚ) (h : Cofinal r u) (ti : ℕ) : List Record :=
  (((NoseParticleGeneration r stop u h).1.filter (fun b => b.1 == ti)).map Prod.snd).flatten

/-- Geometric bound claimed for mouth particles: on the x-plane, inside
the `[ymin, ymax] × [zmin, zmax]` rectangle. -/
def MouthOK (q : Record) : Prop :=
  q.coord.1 = xPln ∧ ymin ≤ q.coord.2.1 ∧ q.coord.2.1 ≤ ymax ∧
    zmin ≤ q.coord.2.2 ∧ q.coord.2.2 ≤ zmax

/-- Geometric bound claimed for nostril particles: the accepted local
coordinate lies strictly inside the disk of radius `r` (and on the
`z = 0` sampling plane). -/
def NostrilOK (r : ℚ) (q : Record) : Prop :=
  q.localCoord.1 * q.localCoord.1 + q.localCoord.2.1 * q.localCoord.2.1 < r * r ∧
    q.localCoord.2.2 = 0

/-- A concrete benign stream: every `random.random()` draw is `1/2`
(all candidates land at the disk centre). -/
def uHalf : ℕ → ℚ := fun _ => 1 / 2

/-! ### Fuel-indexed variant of the rejection loop

Used to observe the write prefix of a run whose rejection loop never
accepts (e.g. radius 0): `none` means the loop is still running after
`fuel` candidates. -/

/-- Fuel-indexed rejection loop: try up to `fuel` candidates from
position `k`. -/
def rejLoopFuel (r : ℚ) (u : ℕ → ℚ) : ℕ → ℕ → Option ℕ
  | _, 0 => none
  | k, fuel + 1 => if acceptB r (candAt r u k) then some k else rejLoopFuel r u (k + 2) fuel

/-- Fuel-indexed `GenNostril`: emits the records produced before the
loop either finishes (`some` final state) or is observed still running
(`none`). -/
def genNostrilFuel (ti : ℕ) (r : ℚ) (pId : ℕ) (m : Mat34) (reg : Region) (u : ℕ → ℚ)
    (pos fuel : ℕ) : List Record × Option (ℕ × ℕ) :=
  match rejLoopFuel r u pos fuel with
  | none => ([], none)
  | some k1 =>
    match rejLoopFuel r u (k1 + 2) fuel with
    | none => ([nostrilParticle ti pId m r u k1 reg], none)
    | some k2 =>
      ([nostrilParticle ti pId m r u k1 reg, nostrilParticle ti (pId + 1) m r u k2 reg],
       some (pId + 2, k2 + 2))

/-- Fuel-indexed scheduler step: the mouth records are written first;
if a nostril rejection loop is observed still running, the records
written up to that point are returned with continuation `none`. -/
def stepFuel (r : ℚ) (u : ℕ → ℚ) (ti pId pos fuel : ℕ) : List Record × Option (ℕ × ℕ) :=
  if 0 ≤ ti % 5000 ∧ ti % 5000 < 2500 then
    let m := mouthLoop ti u 5 pId pos
    match genNostrilFuel ti r m.2.1 leftRotTrans Region.leftNostril u m.2.2 fuel with
    | (lrecs, none) => (m.1 ++ lrecs, none)
    | (lrecs, some st1) =>
      match genNostrilFuel ti r st1.1 rightRotTrans Region.rightNostril u st1.2 fuel with
      | (rrecs, none) => (m.1 ++ (lrecs ++ rrecs), none)
      | (rrecs, some st2) => (m.1 ++ (lrecs ++ rrecs), some st2)
  else ([], some (pId, pos))

end NPG

namespace NPG

/-! ### Structure of the mouth loop -/

theorem mouthLoop_eq (ti : ℕ) (u : ℕ → ℚ) (n : ℕ) :
    ∀ pId pos : ℕ,
      mouthLoop ti u n pId pos =
        ((List.range n).map (fun i => mouthParticle ti (pId + i) u (pos + 2 * i)),
          pId + n, pos + 2 * n) := by
  induction n with
  | zero => intro pId pos; simp [mouthLoop]
  | succ n ih =>
    intro pId pos
    have hl : (List.range (n + 1)).map (fun i => mouthParticle ti (pId + i) u (pos + 2 * i)) =
        mouthParticle ti pId u pos ::
          (List.range n).map (fun i => mouthParticle ti (pId + 1 + i) u (pos + 2 + 2 * i)) := by
      rw [List.range_succ_eq_map, List.map_cons, List.map_map]
      congr 1
      refine List.map_congr_left fun a ha => ?_
      simp only [Function.comp_apply, Nat.succ_eq_add_one]
      rw [(by omega : pId + (a + 1) = pId + 1 + a),
        (by omega : pos + 2 * (a + 1) = pos + 2 + 2 * a)]
    rw [hl, (by omega : pId + (n + 1) = pId + 1 + n),
      (by omega : pos + 2 * (n + 1) = pos + 2 + 2 * n)]
    simp [mouthLoop, ih]

/-! ### Structure of the rejection loop and of `GenNostril` -/

theorem rejLoop_accept (r : ℚ) (u : ℕ → ℚ) (h : Cofinal r u) (k : ℕ) :
    acceptB r (candAt r u (rejLoop r u h k)) = true :=
  Nat.find_spec (h k)

theorem GenNostril_eq (ti : ℕ) (r : ℚ) (pId : ℕ) (m : Mat34) (reg : Region) (u : ℕ → ℚ)
    (h : Cofinal r u) (pos : ℕ) :
    GenNostril ti r pId m reg u h pos =
      ([nostrilParticle ti pId m r u (rejLoop r u h pos) reg,
        nostrilParticle ti (pId + 1) m r u (rejLoop r u h (rejLoop r u h pos + 2)) reg],
       pId + 2, rejLoop r u h (rejLoop r u h pos + 2) + 2) := rfl

end NPG

namespace NPG

/-! ### Structure of one scheduler step -/

theorem step_inactive (r : ℚ) (u : ℕ → ℚ) (h : Cofinal r u) (ti pId pos : ℕ)
    (hc : ¬ ti % 5000 < 2500) : step r u h ti pId pos = ([], pId, pos) := by
  simp [step, hc]

theorem step_active_records (r : ℚ) (u : ℕ → ℚ) (h : Cofinal r u) (ti pId pos : ℕ)
    (hc : ti % 5000 < 2500) :
    (step r u h ti pId pos).1 =
      (List.range 5).map (fun i => mouthParticle ti (pId + i) u (pos + 2 * i)) ++
        ((GenNostril ti r (pId + 5) leftRotTrans Region.leftNostril u h (pos + 10)).1 ++
          (GenNostril ti r (pId + 7) rightRotTrans Region.rightNostril u h
            (rejLoop r u h (rejLoop r u h (pos + 10) + 2) + 2)).1) := by
  simp [step, hc, mouthLoop_eq, GenNostril_eq]

theorem step_active_pId (r : ℚ) (u : ℕ → ℚ) (h : Cofinal r u) (ti pId pos : ℕ)
    (hc : ti % 5000 < 2500) : (step r u h ti pId pos).2.1 = pId + 9 := by
  simp [step, hc, mouthLoop_eq, GenNostril_eq]

theorem step_active_length (r : ℚ) (u : ℕ → ℚ) (h : Cofinal r u) (ti pId pos : ℕ)
    (hc : ti % 5000 < 2500) : (step r u h ti pId pos).1.length = 9 := by
  simp [step_active_records r u h ti pId pos hc, GenNostril_eq]

theorem step_active_map_pId (r : ℚ) (u : ℕ → ℚ) (h : Cofinal r u) (ti pId pos : ℕ)
    (hc : ti % 5000 < 2500) :
    (step r u h ti pId pos).1.map (fun q => q.pId) = List.range' pId 9 := by
  simp [step_active_records r u h ti pId pos hc, GenNostril_eq, mouthParticle,
    nostrilParticle, List.range_succ, List.range']

theorem step_active_regions (r : ℚ) (u : ℕ → ℚ) (h : Cofinal r u) (ti pId pos : ℕ)
    (hc : ti % 5000 < 2500) :
    (step r u h ti pId pos).1.map (fun q => q.region) =
      [Region.mouth, Region.mouth, Region.mouth, Region.mouth, Region.mouth,
       Region.leftNostril, Region.leftNostril, Region.rightNostril, Region.rightNostril] := by
  simp [step_active_records r u h ti pId pos hc, GenNostril_eq, mouthParticle,
    nostrilParticle, List.range_succ]

theorem step_ti (r : ℚ) (u : ℕ → ℚ) (h : Cofinal r u) (ti pId pos : ℕ) :
    ∀ q ∈ (step r u h ti pId pos).1, q.ti = ti := by
  by_cases hc : ti % 5000 < 2500
  · rw [step_active_records r u h ti pId pos hc]
    intro q hq
    rcases List.mem_append.1 hq with hm | hn
    · rcases List.mem_map.1 hm with ⟨i, _, rfl⟩
      rfl
    · rcases List.mem_append.1 hn with hl | hr
      · simp [GenNostril_eq, nostrilParticle] at hl
        rcases hl with h1 | h1 <;> rw [h1]
      · simp [GenNostril_eq, nostrilParticle] at hr
        rcases hr with h1 | h1 <;> rw [h1]
  · simp [step_inactive r u h ti pId pos hc]

end NPG

namespace NPG

/-! ### Structure of the whole scheduler loop -/

theorem range'_nine_append (s L : ℕ) :
    List.range' s 9 ++ List.range' (s + 9) L = List.range' s (9 + L) := by
  have hr := List.range'_append s 9 L 1
  simp only [one_mul] at hr
  rw [hr, Nat.add_comm]

theorem runLoop_map_fst (r : ℚ) (u : ℕ → ℚ) (h : Cofinal r u) (tis : List ℕ) :
    ∀ pId pos : ℕ, ((runLoop r u h tis pId pos).1).map Prod.fst = tis := by
  induction tis with
  | nil => intro pId pos; simp [runLoop]
  | cons ti tis ih => intro pId pos; simp [runLoop, ih]

theorem runLoop_flat_length (r : ℚ) (u : ℕ → ℚ) (h : Cofinal r u) (tis : List ℕ) :
    ∀ pId pos : ℕ,
      ((runLoop r u h tis pId pos).1.map Prod.snd).flatten.length =
        9 * (tis.filter (fun ti => decide (ti % 5000 < 2500))).length := by
  induction tis with
  | nil => intro pId pos; simp [runLoop]
  | cons ti tis ih =>
    intro pId pos
    simp only [runLoop, List.map_cons, List.flatten_cons, List.length_append, ih,
      List.filter_cons]
    by_cases hc : ti % 5000 < 2500
    · rw [step_active_length r u h ti pId pos hc]
      simp only [hc, decide_True, if_true, List.length_cons]
      omega
    · rw [step_inactive r u h ti pId pos hc]
      simp [hc]

theorem runLoop_flat_map_pId (r : ℚ) (u : ℕ → ℚ) (h : Cofinal r u) (tis : List ℕ) :
    ∀ pId pos : ℕ,
      ((runLoop r u h tis pId pos).1.map Prod.snd).flatten.map (fun q => q.pId) =
        List.range' pId ((runLoop r u h tis pId pos).1.map Prod.snd).flatten.length := by
  induction tis with
  | nil => intro pId pos; simp [runLoop]
  | cons ti tis ih =>
    intro pId pos
    by_cases hc : ti % 5000 < 2500
    · simp only [runLoop, List.map_cons, List.flatten_cons, List.map_append, List.length_append]
      rw [step_active_map_pId r u h ti pId pos hc, ih,
        step_active_pId r u h ti pId pos hc, step_active_length r u h ti pId pos hc,
        range'_nine_append]
    · simp only [runLoop, List.map_cons, List.flatten_cons, List.map_append, List.length_append]
      rw [step_inactive r u h ti pId pos hc]
      simp [ih]

theorem runLoop_flat_mem (r : ℚ) (u : ℕ → ℚ) (h : Cofinal r u) (tis : List ℕ) :
    ∀ (pId pos : ℕ) (q : Record),
      q ∈ ((runLoop r u h tis pId pos).1.map Prod.snd).flatten →
      ∃ ti ∈ tis, ∃ pId2 pos2 : ℕ, q ∈ (step r u h ti pId2 pos2).1 := by
  induction tis with
  | nil => intro pId pos q hq; simp [runLoop] at hq
  | cons ti tis ih =>
    intro pId pos q hq
    simp only [runLoop, List.map_cons, List.flatten_cons, List.mem_append] at hq
    rcases hq with hq | hq
    · exact ⟨ti, List.mem_cons_self ti tis, pId, pos, hq⟩
    · rcases ih _ _ q hq with ⟨ti2, ht2, pId2, pos2, hmem⟩
      exact ⟨ti2, List.mem_cons_of_mem ti ht2, pId2, pos2, hmem⟩

theorem runLoop_filter_not_mem (r : ℚ) (u : ℕ → ℚ) (h : Cofinal r u) (t : ℕ) (tis : List ℕ) :
    ∀ pId pos : ℕ, t ∉ tis →
      (runLoop r u h tis pId pos).1.filter (fun b => b.1 == t) = [] := by
  induction tis with
  | nil => intro pId pos _; simp [runLoop]
  | cons ti tis ih =>
    intro pId pos hnot
    have hne : ti ≠ t := fun he => hnot (he ▸ List.mem_cons_self ti tis)
    simp only [runLoop, List.filter_cons]
    have : ((ti, (step r u h ti pId pos).1).1 == t) = false := by
      simp [hne]
    rw [this]
    simp only [if_false, Bool.false_eq_true]
    exact ih _ _ (fun hmem => hnot (List.mem_cons_of_mem ti hmem))

theorem runLoop_filter_mem (r : ℚ) (u : ℕ → ℚ) (h : Cofinal r u) (t : ℕ) (tis : List ℕ) :
    ∀ pId pos : ℕ, tis.Nodup → t ∈ tis →
      ∃ pId2 pos2 : ℕ,
        ((runLoop r u h tis pId pos).1.filter (fun b => b.1 == t)).map Prod.snd =
          [(step r u h t pId2 pos2).1] := by
  induction tis with
  | nil => intro pId pos _ hmem; simp at hmem
  | cons ti tis ih =>
    intro pId pos hnd hmem
    have hnd2 := List.nodup_cons.1 hnd
    by_cases he : ti = t
    · subst he
      refine ⟨pId, pos, ?_⟩
      simp only [runLoop, List.filter_cons]
      have : ((ti, (step r u h ti pId pos).1).1 == ti) = true := by simp
      rw [this]
      simp only [if_true]
      rw [runLoop_filter_not_mem r u h ti tis _ _ hnd2.1]
      simp
    · have hmem2 : t ∈ tis := by
        rcases List.mem_cons.1 hmem with h1 | h1
        · exact absurd h1.symm he
        · exact h1
      rcases ih ((step r u h ti pId pos).2.1) ((step r u h ti pId pos).2.2) hnd2.2 hmem2 with
        ⟨pId2, pos2, heq⟩
      refine ⟨pId2, pos2, ?_⟩
      simp only [runLoop, List.filter_cons]
      have : ((ti, (step r u h ti pId pos).1).1 == t) = false := by simp [he]
      rw [this]
      simp only [if_false, Bool.false_eq_true]
      exact heq

theorem pyRange_nodup (stop stepSize : ℕ) (hs : 0 < stepSize) : (pyRange stop stepSize).Nodup := by
  refine List.Nodup.map ?_ (List.nodup_range _)
  intro a b hab
  have : a * stepSize = b * stepSize := hab
  exact Nat.eq_of_mul_eq_mul_right hs this

end NPG

namespace NPG

/-! ### Records per time step -/

theorem recordsAt_not_mem (r : ℚ) (stop : ℕ) (u : ℕ → ℚ) (h : Cofinal r u) (t : ℕ)
    (ht : t ∉ pyRange stop 5) : recordsAt r stop u h t = [] := by
  unfold recordsAt NoseParticleGeneration
  rw [runLoop_filter_not_mem r u h t (pyRange stop 5) 0 0 ht]
  simp

theorem recordsAt_mem (r : ℚ) (stop : ℕ) (u : ℕ → ℚ) (h : Cofinal r u) (t : ℕ)
    (ht : t ∈ pyRange stop 5) :
    ∃ pId pos : ℕ, recordsAt r stop u h t = (step r u h t pId pos).1 := by
  rcases runLoop_filter_mem r u h t (pyRange stop 5) 0 0 (pyRange_nodup stop 5 (by norm_num)) ht
    with ⟨pId, pos, heq⟩
  refine ⟨pId, pos, ?_⟩
  unfold recordsAt NoseParticleGeneration
  rw [heq]
  simp

/-! ### Geometry of the emitted records -/

theorem mouthParticle_geom (ti pId : ℕ) (u : ℕ → ℚ) (pos : ℕ)
    (h0 : 0 ≤ u pos) (h1 : u pos < 1) (h2 : 0 ≤ u (pos + 1)) (h3 : u (pos + 1) < 1) :
    MouthOK (mouthParticle ti pId u pos) := by
  refine ⟨rfl, ?_, ?_, ?_, ?_⟩ <;>
    simp only [mouthParticle, MouthOK, pyUniform, ydel, zdel, ymin, ymax, zmin, zmax] <;>
    norm_num <;> nlinarith

theorem nostrilParticle_geom (ti pId : ℕ) (m : Mat34) (r : ℚ) (u : ℕ → ℚ) (k : ℕ)
    (reg : Region) (hacc : acceptB r (candAt r u k) = true) :
    NostrilOK r (nostrilParticle ti pId m r u k reg) ∧
      (nostrilParticle ti pId m r u k reg).coord =
        RotTrans m (nostrilParticle ti pId m r u k reg).localCoord :=
  ⟨⟨of_decide_eq_true hacc, rfl⟩, rfl⟩

theorem step_geom (r : ℚ) (u : ℕ → ℚ) (h : Cofinal r u) (ti pId pos : ℕ)
    (hu : ∀ n : ℕ, 0 ≤ u n ∧ u n < 1) :
    ∀ q ∈ (step r u h ti pId pos).1,
      (q.region = Region.mouth → MouthOK q) ∧
      (q.region = Region.leftNostril →
        NostrilOK r q ∧ q.coord = RotTrans leftRotTrans q.localCoord) ∧
      (q.region = Region.rightNostril →
        NostrilOK r q ∧ q.coord = RotTrans rightRotTrans q.localCoord) := by
  by_cases hc : ti % 5000 < 2500
  · rw [step_active_records r u h ti pId pos hc]
    intro q hq
    rcases List.mem_append.1 hq with hm | hn
    · rcases List.mem_map.1 hm with ⟨i, _, rfl⟩
      refine ⟨fun _ => mouthParticle_geom ti (pId + i) u (pos + 2 * i)
        (hu _).1 (hu _).2 (hu _).1 (hu _).2, fun hreg => ?_, fun hreg => ?_⟩ <;>
        simp [mouthParticle] at hreg
    · rcases List.mem_append.1 hn with hl | hr
      · simp only [GenNostril_eq, List.mem_cons, List.not_mem_nil, or_false] at hl
        rcases hl with h1 | h1 <;> subst h1 <;>
          exact ⟨fun hreg => by simp [nostrilParticle] at hreg,
            fun _ => nostrilParticle_geom _ _ _ _ _ _ _ (rejLoop_accept r u h _),
            fun hreg => by simp [nostrilParticle] at hreg⟩
      · simp only [GenNostril_eq, List.mem_cons, List.not_mem_nil, or_false] at hr
        rcases hr with h1 | h1 <;> subst h1 <;>
          exact ⟨fun hreg => by simp [nostrilParticle] at hreg,
            fun hreg => by simp [nostrilParticle] at hreg,
            fun _ => nostrilParticle_geom _ _ _ _ _ _ _ (rejLoop_accept r u h _)⟩
  · rw [step_inactive r u h ti pId pos hc]
    intro q hq
    simp at hq

/-! ### The benign constant stream -/

theorem uHalf_bounds (n : ℕ) : 0 ≤ uHalf n ∧ uHalf n < 1 := by norm_num [uHalf]

theorem cofinal_of_pos (r : ℚ) (hr : 0 < r) : Cofinal r uHalf := by
  intro k
  refine ⟨0, ?_⟩
  have hx : candAt r uHalf (k + 2 * 0) = (0, 0) := by
    simp only [candAt, pyUniform, uHalf]
    norm_num
  rw [hx]
  simp only [acceptB, decide_eq_true_eq]
  norm_num
  exact ne_of_gt hr

theorem cofinal_radius : Cofinal radius uHalf :=
  cofinal_of_pos radius (by norm_num [radius])

end NPG

namespace NPG

/-! ### Claim theorems -/

/-- C1: for every time step `ti` of the scheduler loop, a particle
batch is emitted at `ti` if and only if `ti % 5000 < 2500`
(cyclePeriod 5000 ms, exhaleLength 2500 ms, the source's hard-coded
values); at every step where this condition fails, zero particles are
emitted. -/
theorem claim_c1_emission_window (stop : ℕ) (u : ℕ → ℚ) (h : Cofinal radius u) (ti : ℕ) :
    (recordsAt radius stop u h ti ≠ [] ↔ ti ∈ pyRange stop 5 ∧ ti % 5000 < 2500) ∧
      (¬ ti % 5000 < 2500 → (recordsAt radius stop u h ti).length = 0) := by
  constructor
  · constructor
    · intro hne
      by_cases htm : ti ∈ pyRange stop 5
      · refine ⟨htm, ?_⟩
        by_contra hc
        rcases recordsAt_mem radius stop u h ti htm with ⟨pId, pos, heq⟩
        rw [heq, step_inactive radius u h ti pId pos hc] at hne
        exact hne rfl
      · rw [recordsAt_not_mem radius stop u h ti htm] at hne
        exact absurd rfl hne
    · rintro ⟨htm, hc⟩
      rcases recordsAt_mem radius stop u h ti htm with ⟨pId, pos, heq⟩
      rw [heq]
      intro hnil
      have hlen := step_active_length radius u h ti pId pos hc
      rw [hnil] at hlen
      simp at hlen
  · intro hc
    by_cases htm : ti ∈ pyRange stop 5
    · rcases recordsAt_mem radius stop u h ti htm with ⟨pId, pos, heq⟩
      rw [heq, step_inactive radius u h ti pId pos hc]
      rfl
    · rw [recordsAt_not_mem radius stop u h ti htm]
      rfl

/-- Witness for C1 at the concrete configuration `stop = 5`,
stream `uHalf`, inactive step `ti = 2500`. -/
theorem claim_c1_emission_window_witness :
    (recordsAt radius 5 uHalf cofinal_radius 2500).length = 0 :=
  (claim_c1_emission_window 5 uHalf cofinal_radius 2500).2 (by norm_num)

/-- C2: at every active time step, exactly `5 + 2 + 2` particles are
emitted, in the fixed order mouth batch, left-nostril batch,
right-nostril batch, every one tagged with the current `ti`. -/
theorem claim_c2_batch_composition (stop : ℕ) (u : ℕ → ℚ) (h : Cofinal radius u) (ti : ℕ)
    (hmem : ti ∈ pyRange stop 5) (hc : ti % 5000 < 2500) :
    (recordsAt radius stop u h ti).length = 5 + 2 + 2 ∧
      (recordsAt radius stop u h ti).map (fun q => q.region) =
        [Region.mouth, Region.mouth, Region.mouth, Region.mouth, Region.mouth,
         Region.leftNostril, Region.leftNostril,
         Region.rightNostril, Region.rightNostril] ∧
      (recordsAt radius stop u h ti).Forall (fun q => q.ti = ti) := by
  rcases recordsAt_mem radius stop u h ti hmem with ⟨pId, pos, heq⟩
  rw [heq]
  refine ⟨?_, step_active_regions radius u h ti pId pos hc,
    List.forall_iff_forall_mem.2 (step_ti radius u h ti pId pos)⟩
  rw [step_active_length radius u h ti pId pos hc]

/-- Witness for C2 at the concrete configuration `stop = 5`,
stream `uHalf`, active step `ti = 0`. -/
theorem claim_c2_batch_composition_witness :
    (recordsAt radius 5 uHalf cofinal_radius 0).length = 5 + 2 + 2 ∧
      (recordsAt radius 5 uHalf cofinal_radius 0).map (fun q => q.region) =
        [Region.mouth, Region.mouth, Region.mouth, Region.mouth, Region.mouth,
         Region.leftNostril, Region.leftNostril,
         Region.rightNostril, Region.rightNostril] ∧
      (recordsAt radius 5 uHalf cofinal_radius 0).Forall (fun q => q.ti = 0) :=
  claim_c2_batch_composition 5 uHalf cofinal_radius 0 (by decide) (by norm_num)

/-- C3: each writer call returns `pId + 1`; across an entire run the
particle ids passed to the writer are exactly `0, 1, 2, …` (strictly
increasing and gap-free, never reset), so the id field serialized by
the full format (`pId`) starts at 0 and the id field serialized by the
compact format (`pId + 1`) starts at 1. -/
theorem claim_c3_identifier_sequence (stop : ℕ) (u : ℕ → ℚ) (h : Cofinal radius u) :
    (∀ (t pId : ℕ) (c : ℚ × ℚ × ℚ),
      (Output t pId c).2 = pId + 1 ∧ (OutputStar t pId c).2 = pId + 1) ∧
      (runRecords radius stop u h).map (fun q => q.pId) =
        List.range' 0 (runRecords radius stop u h).length ∧
      (runRecords radius stop u h).map (fun q => q.pId + 1) =
        List.range' 1 (runRecords radius stop u h).length := by
  refine ⟨fun t pId c => ⟨rfl, rfl⟩, ?_, ?_⟩
  · unfold runRecords NoseParticleGeneration
    exact runLoop_flat_map_pId radius u h (pyRange stop 5) 0 0
  · have hm : (runRecords radius stop u h).map (fun q => q.pId) =
        List.range' 0 (runRecords radius stop u h).length := by
      unfold runRecords NoseParticleGeneration
      exact runLoop_flat_map_pId radius u h (pyRange stop 5) 0 0
    have : (runRecords radius stop u h).map (fun q => q.pId + 1) =
        ((runRecords radius stop u h).map (fun q => q.pId)).map (fun i => i + 1) := by
      rw [List.map_map]
      rfl
    rw [this, hm]
    have hadd := List.map_add_range' 1 0 (runRecords radius stop u h).length 1
    simp only [Nat.add_zero, one_mul] at hadd
    rw [← hadd]
    refine List.map_congr_left fun a _ => ?_
    omega

/-- Witness for C3 at the concrete configuration `stop = 5`,
stream `uHalf`. -/
theorem claim_c3_identifier_sequence_witness :
    (runRecords radius 5 uHalf cofinal_radius).map (fun q => q.pId) =
      List.range' 0 (runRecords radius 5 uHalf cofinal_radius).length :=
  (claim_c3_identifier_sequence 5 uHalf cofinal_radius).2.1

end NPG

namespace NPG

/-- C4: every emitted particle lies inside its source region's bound:
mouth particles on the x-plane inside the `y`/`z` rectangle, nostril
particles with accepted local coordinate strictly inside the disk of
radius `radius` before the affine transform is applied (the global
coordinate is exactly the transform of the recorded local one). -/
theorem claim_c4_geometric_bounds (stop : ℕ) (u : ℕ → ℚ)
    (hu : ∀ n : ℕ, 0 ≤ u n ∧ u n < 1) (h : Cofinal radius u) :
    (runRecords radius stop u h).Forall (fun q =>
      (q.region = Region.mouth → MouthOK q) ∧
      (q.region = Region.leftNostril →
        NostrilOK radius q ∧ q.coord = RotTrans leftRotTrans q.localCoord) ∧
      (q.region = Region.rightNostril →
        NostrilOK radius q ∧ q.coord = RotTrans rightRotTrans q.localCoord)) := by
  refine List.forall_iff_forall_mem.2 fun q hq => ?_
  unfold runRecords NoseParticleGeneration at hq
  rcases runLoop_flat_mem radius u h (pyRange stop 5) 0 0 q hq with ⟨ti, _, pId2, pos2, hmem⟩
  exact step_geom radius u h ti pId2 pos2 hu q hmem

/-- Witness for C4 at the concrete configuration `stop = 5`,
stream `uHalf`. -/
theorem claim_c4_geometric_bounds_witness :
    (runRecords radius 5 uHalf cofinal_radius).Forall (fun q =>
      (q.region = Region.mouth → MouthOK q) ∧
      (q.region = Region.leftNostril →
        NostrilOK radius q ∧ q.coord = RotTrans leftRotTrans q.localCoord) ∧
      (q.region = Region.rightNostril →
        NostrilOK radius q ∧ q.coord = RotTrans rightRotTrans q.localCoord)) :=
  claim_c4_geometric_bounds 5 uHalf uHalf_bounds cofinal_radius

/-! ### Helper facts for the run-length-10000 scenario -/

theorem mem_pyRange_iff (stop ti : ℕ) : ti ∈ pyRange stop 5 ↔ ti % 5 = 0 ∧ ti < stop := by
  simp only [pyRange, List.mem_map, List.mem_range]
  constructor
  · rintro ⟨k, hk, rfl⟩
    omega
  · rintro ⟨hmod, hlt⟩
    exact ⟨ti / 5, by omega, by omega⟩

theorem recordsAt_ne_nil_iff (r : ℚ) (stop : ℕ) (u : ℕ → ℚ) (h : Cofinal r u) (ti : ℕ) :
    recordsAt r stop u h ti ≠ [] ↔ ti ∈ pyRange stop 5 ∧ ti % 5000 < 2500 := by
  constructor
  · intro hne
    by_cases htm : ti ∈ pyRange stop 5
    · refine ⟨htm, ?_⟩
      by_contra hc
      rcases recordsAt_mem r stop u h ti htm with ⟨pId, pos, heq⟩
      rw [heq, step_inactive r u h ti pId pos hc] at hne
      exact hne rfl
    · rw [recordsAt_not_mem r stop u h ti htm] at hne
      exact absurd rfl hne
  · rintro ⟨htm, hc⟩
    rcases recordsAt_mem r stop u h ti htm with ⟨pId, pos, heq⟩
    rw [heq]
    intro hnil
    have hlen := step_active_length r u h ti pId pos hc
    rw [hnil] at hlen
    simp at hlen

end NPG

namespace NPG

set_option maxRecDepth 400000 in
/-- C5: for the configuration step 5 ms, cycle 5000 ms, exhale 2500 ms,
run length 10000 ms (loop `range(0, 10000, 5)`), mouth count 5 and 2
per nostril: particles are emitted exactly at
`ti ∈ {0, 5, …, 2495} ∪ {5000, 5005, …, 7495}`, none are emitted for
`ti ∈ [2500, 5000) ∪ [7500, 10000)`, and the total particle count of
the run is exactly 9000. -/
theorem claim_c5_scenario (u : ℕ → ℚ) (h : Cofinal radius u) :
    (∀ ti : ℕ, recordsAt radius 10000 u h ti ≠ [] ↔
        (ti ∈ pyRange 2500 5 ∨ ti ∈ (pyRange 2500 5).map (fun t => t + 5000))) ∧
      (∀ ti : ℕ, (2500 ≤ ti ∧ ti < 5000) ∨ (7500 ≤ ti ∧ ti < 10000) →
        recordsAt radius 10000 u h ti = []) ∧
      (runRecords radius 10000 u h).length = 9000 := by
  refine ⟨fun ti => ?_, fun ti hdead => ?_, ?_⟩
  · rw [recordsAt_ne_nil_iff radius 10000 u h ti, mem_pyRange_iff]
    constructor
    · rintro ⟨⟨hmod, hlt⟩, hact⟩
      by_cases hlo : ti < 2500
      · exact Or.inl ((mem_pyRange_iff 2500 ti).2 ⟨hmod, hlo⟩)
      · refine Or.inr (List.mem_map.2
          ⟨ti - 5000, (mem_pyRange_iff 2500 (ti - 5000)).2 ⟨by omega, by omega⟩, by omega⟩)
    · intro hmem
      rcases hmem with hm | hm
      · have hh := (mem_pyRange_iff 2500 ti).1 hm
        exact ⟨⟨hh.1, by omega⟩, by omega⟩
      · rcases List.mem_map.1 hm with ⟨t, ht, rfl⟩
        have hh := (mem_pyRange_iff 2500 t).1 ht
        exact ⟨⟨by omega, by omega⟩, by omega⟩
  · by_cases htm : ti ∈ pyRange 10000 5
    · rcases recordsAt_mem radius 10000 u h ti htm with ⟨pId, pos, heq⟩
      rw [heq, step_inactive radius u h ti pId pos (by omega)]
    · exact recordsAt_not_mem radius 10000 u h ti htm
  · unfold runRecords NoseParticleGeneration
    rw [runLoop_flat_length radius u h (pyRange 10000 5) 0 0]
    have hcount : ((pyRange 10000 5).filter
        (fun ti => decide (ti % 5000 < 2500))).length = 1000 := by decide
    rw [hcount]

/-- Witness for C5 at the concrete stream `uHalf` and the dead step
`ti = 2500`. -/
theorem claim_c5_scenario_witness :
    recordsAt radius 10000 uHalf cofinal_radius 2500 = [] :=
  (claim_c5_scenario uHalf cofinal_radius).2.1 2500 (Or.inl ⟨by norm_num, by norm_num⟩)

end NPG

namespace NPG

/-! ### The writer scenario and the transform claims -/

theorem fmtFixed_nonneg_eq (q : ℚ) (hq : 0 ≤ q) (prec : ℕ) :
    fmtFixed q prec = fmtFixedNonneg q prec := by
  unfold fmtFixed
  rw [if_neg (not_lt.2 hq)]

/-- C6: the full-format writer, applied to
`(ti = 2500, pId = 0, coord = [0.0015, 3.37, 1.683])`, produces exactly
the claimed tab-separated line and returns the next identifier 1. -/
theorem claim_c6_full_format_line :
    Output 2500 0 ((0.0015 : ℚ), (3.37 : ℚ), (1.683 : ℚ)) =
      ("0.001500000000000\t3.370000000000000\t1.683000000000000\t0.0\t0.0\t0.0\t  2.500\t10.0e-6\t977.0\t0\n",
       1) := by
  have hx : (0.0015 : ℚ).num = 3 := by norm_num
  have hxd : (0.0015 : ℚ).den = 2000 := by norm_num
  have hy : (3.37 : ℚ).num = 337 := by norm_num
  have hyd : (3.37 : ℚ).den = 100 := by norm_num
  have hz : (1.683 : ℚ).num = 1683 := by norm_num
  have hzd : (1.683 : ℚ).den = 1000 := by norm_num
  have ht : (((2500 : ℕ) : ℚ) / 1000).num = 5 := by norm_num
  have htd : (((2500 : ℕ) : ℚ) / 1000).den = 2 := by norm_num
  simp only [Output]
  rw [fmtFixed_nonneg_eq (0.0015 : ℚ) (by norm_num) 15,
    fmtFixed_nonneg_eq (3.37 : ℚ) (by norm_num) 15,
    fmtFixed_nonneg_eq (1.683 : ℚ) (by norm_num) 15,
    fmtFixed_nonneg_eq (((2500 : ℕ) : ℚ) / 1000) (by norm_num) 3]
  unfold fmtFixedNonneg roundScaled
  rw [hx, hxd, hy, hyd, hz, hzd, ht, htd]
  decide

/-- C7: the geometric transform is the pure function whose row `I`
equals `R[I][0]*x + R[I][1]*y + R[I][2]*z + t[I]` for every 3×4 matrix
and every point. -/
theorem claim_c7_rotTrans_formula (m : Mat34) (p : ℚ × ℚ × ℚ) :
    RotTrans m p =
      (m.a00 * p.1 + m.a01 * p.2.1 + m.a02 * p.2.2 + m.a03,
       m.a10 * p.1 + m.a11 * p.2.1 + m.a12 * p.2.2 + m.a13,
       m.a20 * p.1 + m.a21 * p.2.1 + m.a22 * p.2.2 + m.a23) := rfl

/-- C10: the left and right nostril transformation matrices are
element-wise identical, so the transform of any local point under the
left matrix equals its transform under the right matrix. -/
theorem claim_c10_nostril_transforms_identical :
    leftRotTrans = rightRotTrans ∧
      ∀ p : ℚ × ℚ × ℚ, RotTrans leftRotTrans p = RotTrans rightRotTrans p :=
  ⟨rfl, fun _ => rfl⟩

end NPG

namespace NPG

/-- C8: for every radius `r > 0` and every candidate stream that
eventually yields an accepted pair for each required sample, the
rejection loop terminates and `GenNostril` produces exactly 2 accepted
samples; and the implementation imposes no retry cap: however many
initial candidates are rejected, the loop keeps trying past them. -/
theorem claim_c8_rejection_sampling (r : ℚ) (hr : 0 < r) (u : ℕ → ℚ) (h : Cofinal r u)
    (ti pId pos : ℕ) (m : Mat34) (reg : Region) :
    (GenNostril ti r pId m reg u h pos).1.length = 2 ∧
      (GenNostril ti r pId m reg u h pos).1.Forall (fun q => NostrilOK r q) ∧
      (∀ j : ℕ, (∀ i, i ≤ j → acceptB r (candAt r u (pos + 2 * i)) = false) →
        pos + 2 * j < rejLoop r u h pos) := by
  refine ⟨by rw [GenNostril_eq]; rfl, ?_, ?_⟩
  · refine List.forall_iff_forall_mem.2 fun q hq => ?_
    rw [GenNostril_eq] at hq
    simp only [List.mem_cons, List.not_mem_nil, or_false] at hq
    rcases hq with h1 | h1 <;> subst h1 <;>
      exact (nostrilParticle_geom _ _ _ _ _ _ _ (rejLoop_accept r u h _)).1
  · intro j hrej
    unfold rejLoop
    have hfind : j < Nat.find (h pos) := by
      rw [Nat.lt_find_iff]
      intro i hi
      simp [hrej i hi]
    omega

/-- Witness for C8 at radius `radius`, stream `uHalf`, first loop of
the left nostril. -/
theorem claim_c8_rejection_sampling_witness :
    (GenNostril 0 radius 0 leftRotTrans Region.leftNostril uHalf cofinal_radius 0).1.length
      = 2 :=
  (claim_c8_rejection_sampling radius (by norm_num [radius]) uHalf cofinal_radius 0 0 0
    leftRotTrans Region.leftNostril).1

/-! ### Behaviour under the malformed radius 0 -/

theorem acceptB_zero_radius (p : ℚ × ℚ) : acceptB 0 p = false := by
  simp only [acceptB, decide_eq_false_iff_not, not_lt]
  nlinarith [mul_self_nonneg p.1, mul_self_nonneg p.2]

theorem rejLoopFuel_zero_radius (u : ℕ → ℚ) (fuel : ℕ) :
    ∀ k : ℕ, rejLoopFuel 0 u k fuel = none := by
  induction fuel with
  | zero => intro k; rfl
  | succ n ih =>
    intro k
    unfold rejLoopFuel
    rw [acceptB_zero_radius]
    simp only [Bool.false_eq_true, if_false]
    exact ih (k + 2)

theorem genNostrilFuel_zero_radius (ti pId : ℕ) (m : Mat34) (reg : Region) (u : ℕ → ℚ)
    (pos fuel : ℕ) : genNostrilFuel ti 0 pId m reg u pos fuel = ([], none) := by
  unfold genNostrilFuel
  rw [rejLoopFuel_zero_radius u fuel pos]

theorem stepFuel_zero_radius (u : ℕ → ℚ) (pId pos fuel : ℕ) :
    stepFuel 0 u 0 pId pos fuel =
      ((List.range 5).map (fun i => mouthParticle 0 (pId + i) u (pos + 2 * i)), none) := by
  unfold stepFuel
  rw [if_pos (by norm_num)]
  simp only [mouthLoop_eq, genNostrilFuel_zero_radius]
  simp

/-- C9 (counterexample): with the malformed configuration radius 0
(one of the claim's own examples), the run does not validate and fail
before output: the scheduler starts, the mouth sampler of time step 0
writes 5 particle records before the nostril sampler is reached, the
nostril loop then has no accepted candidate, and the run never reports
a fault (the loop never terminates: `Cofinal 0` holds for no stream). -/
theorem claim_c9_counterexample :
    (stepFuel 0 uHalf 0 0 0 3).1.length = 5 ∧
      (stepFuel 0 uHalf 0 0 0 3).1.map (fun q => q.region) =
        [Region.mouth, Region.mouth, Region.mouth, Region.mouth, Region.mouth] ∧
      (stepFuel 0 uHalf 0 0 0 3).2 = none ∧
      ¬ Cofinal 0 uHalf := by
  refine ⟨?_, ?_, ?_, ?_⟩
  · rw [stepFuel_zero_radius]
    simp
  · rw [stepFuel_zero_radius]
    simp [mouthParticle, List.range_succ]
  · rw [stepFuel_zero_radius]
  · intro hc
    rcases hc 0 with ⟨j, hj⟩
    rw [acceptB_zero_radius] at hj
    exact Bool.false_ne_true hj

/-- C9 (amended): the program performs no eager configuration
validation and reports no configuration fault: for the malformed
radius 0, every rejection candidate is rejected (`x*x + y*y < 0*0` is
impossible), yet the emission loop still runs and the mouth sampler of
the first time step writes its 5 records before the nostril sampler,
whose loop then never terminates — regardless of the random stream and
of how long the loop is observed. -/
theorem claim_c9_no_validation (u : ℕ → ℚ) (pId pos fuel : ℕ) :
    (∀ p : ℚ × ℚ, acceptB 0 p = false) ∧
      (stepFuel 0 u 0 pId pos fuel).1.length = 5 ∧
      (stepFuel 0 u 0 pId pos fuel).1.map (fun q => q.region) =
        [Region.mouth, Region.mouth, Region.mouth, Region.mouth, Region.mouth] ∧
      (stepFuel 0 u 0 pId pos fuel).2 = none := by
  refine ⟨acceptB_zero_radius, ?_, ?_, ?_⟩
  · rw [stepFuel_zero_radius]
    simp
  · rw [stepFuel_zero_radius]
    simp [mouthParticle, List.range_succ]
  · rw [stepFuel_zero_radius]

end NPG
